import Mathlib

/-!
Shallow embedding of the cricket-backend booking core
(`src/services/booking.service.ts`, `src/services/pricing.service.ts`,
`src/services/promoCode.service.ts`, `src/controllers/booking.controller.ts`)
and theorems about its slot-overlap, availability, pricing and promo-code
logic.

Conventions of the embedding:
* a clock time `HH:MM` is represented by its minute offset since local
  midnight (a `Nat` below 1440), the result of the source's `timeToMinutes`
  applied to a string accepted by `validateTimeFormat`;
* a calendar date is represented by its day number since 1970-01-01
  (proleptic Gregorian, the arithmetic of a JS `Date` normalized to
  midnight); `1970-01-01` was a Thursday, so `getDay` is `(d + 4) % 7`;
* JS numbers carrying money and hour counts are modelled as exact
  rationals (`ℚ`): every quantity the code manipulates (rates, half-hour
  multiples, discounts) is an exact rational;
* `throw new ApiError(...)` becomes `Except.error` of an `Err` record,
  and every fallible operation returns `Except Err _`;
* the Mongo stores become explicit lists threaded through the functions.
-/

set_option maxHeartbeats 1000000

namespace Cricket

/-- Embedding of `ApiError` (`src/utils/ApiError.ts`): a status code and a
message. -/
structure Err where
  statusCode : Nat
  message : String
  deriving Repr, DecidableEq

/-- `BadRequestError` (status 400). -/
def badRequest (msg : String) : Err := ⟨400, msg⟩

/-- `NotFoundError` (status 404, message "resource not found"). -/
def notFound (resource : String) : Err := ⟨404, resource ++ " not found"⟩

/-- `ConflictError` (status 409). -/
def conflict (msg : String) : Err := ⟨409, msg⟩

/-- `BookingService.timeSlotsOverlap` (booking.service.ts:193-236),
literally transcribed: the two early `return true` tests of the
crossing/non-crossing branch and the swap for the symmetric case. -/
def timeSlotsOverlap (start1 end1 : Nat) (crosses1 : Bool)
    (start2 end2 : Nat) (crosses2 : Bool) : Bool :=
  match crosses1, crosses2 with
  | false, false =>
    -- "Classic overlap check: (StartA < EndB) and (EndA > StartB)"
    decide (start1 < end2) && decide (end1 > start2)
  | true, false =>
    -- slot 1 crosses midnight
    if start2 ≥ start1 then true
    else if end2 ≤ end1 then true
    else false
  | false, true =>
    -- slot 2 crosses midnight: "Reverse the check"
    timeSlotsOverlap start2 end2 true start1 end1 false
  | true, true => true
termination_by cond crosses2 1 0
decreasing_by decide

/-- One entry of the pricing breakdown (a `PriceSegment`). -/
structure PriceSegment where
  rate : ℚ
  days : String
  category : String
  timeSlot : String
  deriving Repr, DecidableEq

/-- A stored reservation document (model `Booking`, fields as used by the
controllers and services; times already parsed to minutes). -/
structure Booking where
  id : Nat
  customer : Option Nat
  court : Nat
  bookingDate : Nat
  startTime : Nat
  endTime : Nat
  durationHours : ℚ
  totalPrice : ℚ
  pricingBreakdown : List PriceSegment
  promoCode : Option Nat
  discountAmount : ℚ
  finalPrice : ℚ
  paymentStatus : String
  paymentId : Option String
  amountPaid : ℚ
  status : String
  notes : Option String
  deriving Repr, DecidableEq

/-- Result of `checkAvailability` (`AvailabilityResult`); `conflicts`
keeps the full conflicting documents (the source projects them to
id/times/status, which loses nothing relevant). -/
structure AvailabilityResult where
  available : Bool
  conflicts : List Booking
  deriving Repr, DecidableEq

/-- The Mongo query filter of `checkAvailability` (booking.service.ts:35-44):
same court, same (normalized) date, status not cancelled, optionally
excluding one id. -/
def bookingMatches (courtId d : Nat) (excludeId : Option Nat)
    (b : Booking) : Bool :=
  b.court == courtId && b.bookingDate == d && b.status != "cancelled" &&
    (match excludeId with
     | some i => b.id != i
     | none => true)

/-- `BookingService.checkAvailability` (booking.service.ts:14-82) over an
explicit store: filter the matching bookings, keep those that overlap the
request, report `available` iff no conflict. -/
def checkAvailability (bookings : List Booking) (courtId d sm em : Nat)
    (excludeId : Option Nat) : AvailabilityResult :=
  let crosses := decide (em < sm)
  let existing := bookings.filter (bookingMatches courtId d excludeId)
  let conflicts := existing.filter (fun b =>
    timeSlotsOverlap sm em crosses b.startTime b.endTime
      (decide (b.endTime < b.startTime)))
  ⟨conflicts.isEmpty, conflicts⟩

/-- The Mongo query filter of `checkBatchAvailability`
(booking.service.ts:108-119): date in the day range, not cancelled, and
court in `courtIds` when a non-empty list was passed (JS: `courtIds &&
courtIds.length > 0`). -/
def batchQueryFilter (d : Nat) (courtIds : Option (List Nat))
    (b : Booking) : Bool :=
  b.bookingDate == d && b.status != "cancelled" &&
    (match courtIds with
     | some cs => if cs.isEmpty then true else cs.contains b.court
     | none => true)

/-- First-occurrence key insertion, modelling how the `Map` of
`checkBatchAvailability` accumulates its keys in booking order. -/
def insertKey (acc : List Nat) (c : Nat) : List Nat :=
  if acc.contains c then acc else acc ++ [c]

/-- `BookingService.checkBatchAvailability` (booking.service.ts:88-188):
one store fetch, partition by court, then the per-(court, slot) overlap
loop.  `courtsToCheck = courtIds || Array.from(map.keys())`: a present
list (even empty) is used as is, an absent one falls back to the courts
that actually have bookings. -/
def checkBatchAvailability (bookings : List Booking) (d : Nat)
    (slots : List (Nat × Nat)) (courtIds : Option (List Nat)) :
    List (Nat × List ((Nat × Nat) × Bool)) :=
  let existing := bookings.filter (batchQueryFilter d courtIds)
  let courtsToCheck :=
    match courtIds with
    | some cs => cs
    | none =>
      existing.foldl (fun (acc : List Nat) (b : Booking) => insertKey acc b.court) []
  courtsToCheck.map (fun (c : Nat) =>
    let courtBookings := existing.filter (fun (b : Booking) => b.court == c)
    (c, slots.map (fun (s : Nat × Nat) =>
      let crosses := decide (s.2 < s.1)
      let hasConflict := courtBookings.any (fun (b : Booking) =>
        timeSlotsOverlap s.1 s.2 crosses b.startTime b.endTime
          (decide (b.endTime < b.startTime)))
      (s, !hasConflict))))

/-- `BookingService.validateBookingTime` (booking.service.ts:259-333):
duration, 30-minute increment, operating-window and past-date checks, in
source order.  `crossesMidnight` is the strict comparison
`endMinutes < startMinutes`. -/
def validateBookingTime (sm em : Nat) (bookingDate today : Nat) :
    Except Err Unit :=
  let crossesMidnight := em < sm
  let durationMinutes := if em < sm then 24 * 60 - sm + em else em - sm
  if durationMinutes < 60 then
    .error (badRequest "Booking duration must be at least 1 hour")
  else if durationMinutes % 30 ≠ 0 then
    .error (badRequest "Booking duration must be in 30-minute increments")
  else if ¬(sm ≥ 9 * 60 ∨ sm < 4 * 60) then
    .error (badRequest "Booking start time must be between 9:00 AM and 4:00 AM")
  else if crossesMidnight ∧ em > 4 * 60 then
    .error (badRequest "Booking cannot end after 4:00 AM")
  else if ¬crossesMidnight ∧ (sm ≥ 9 * 60 ∧ em ≤ 9 * 60) then
    .error (badRequest "Invalid booking time")
  else if bookingDate < today then
    .error (badRequest "Cannot book in the past")
  else
    .ok ()

/-- `BookingService.calculateDuration` (booking.service.ts:338-351):
duration in hours, with the same strict midnight rule. -/
def calculateDuration (sm em : Nat) : ℚ :=
  let durationMinutes : Nat := if em < sm then 24 * 60 - sm + em else em - sm
  (durationMinutes : ℚ) / 60

/-- Day of month (1-31) of a day number since 1970-01-01, the value of
JS `Date.prototype.getDate` for a date normalized to midnight (civil
calendar conversion, Gregorian). -/
def civilDayOfMonth (z : Nat) : Nat :=
  let zs := z + 719468
  let doe := zs % 146097
  let yoe := (doe - doe / 1460 + doe / 36524 - doe / 146096) / 365
  let doy := doe - (365 * yoe + yoe / 4 - yoe / 100)
  let mp := (5 * doy + 2) / 153
  doy - (153 * mp + 2) / 5 + 1

/-- Day number since 1970-01-01 of a Gregorian calendar date (used only
to name concrete dates in scenarios). -/
def daysFromCivil (y m d : Nat) : Nat :=
  let ys := if m ≤ 2 then y - 1 else y
  let era := ys / 400
  let yoe := ys - era * 400
  let doy := (153 * (if m > 2 then m - 3 else m + 9) + 2) / 5 + d - 1
  let doe := yoe * 365 + yoe / 4 - yoe / 100 + doy
  era * 146097 + doe - 719468

/-- JS `Date.prototype.getDay`: 0 = Sunday … 6 = Saturday.
1970-01-01 (day 0) was a Thursday (4). -/
def getDayOfWeek (d : Nat) : Nat := (d + 4) % 7

/-- `PricingService.getDays` (pricing.service.ts:16-22): the day bucket
of a date. -/
def getDays (date : Nat) : String :=
  let day := getDayOfWeek date
  if day = 0 ∨ day = 1 ∨ day = 2 ∨ day = 3 then "sun-wed"
  else if day = 4 then "thu"
  else if day = 5 then "fri"
  else "sat"

/-- `PricingService.isNightTime` (pricing.service.ts:53-55). -/
def isNightTime (hour : Nat) : Bool := decide (hour ≥ 19) || decide (hour < 9)

/-- `PricingService.getTimeSlot` (pricing.service.ts:60-62). -/
def getTimeSlot (hour : Nat) : String := if isNightTime hour then "night" else "day"

/-- `PricingService.getCategory` (pricing.service.ts:27-47). -/
def getCategory (days timeSlot : String) : String :=
  if days = "sun-wed" ∧ timeSlot = "day" then "weekday-day"
  else if days = "sun-wed" ∧ timeSlot = "night" then "weekday-night"
  else if days = "thu" ∧ timeSlot = "day" then "weekday-day"
  else if days = "thu" ∧ timeSlot = "night" then "weekend-night"
  else if days = "fri" ∧ timeSlot = "day" then "weekend-day"
  else if days = "fri" ∧ timeSlot = "night" then "weekend-night"
  else if days = "sat" ∧ timeSlot = "day" then "weekend-day"
  else "weekday-night"

/-- `PricingService.getEffectiveDate` (pricing.service.ts:71-96): for an
hour in [0,4), rewind one day, except that when the slot's calendar
day-of-month equals the booking date's day-of-month the booking date
itself is returned.  `date` is the day number of the slot's datetime,
`hour` its hour. -/
def getEffectiveDate (date : Nat) (hour : Nat) (bookingDate : Option Nat) :
    Nat :=
  if hour < 4 then
    let effectiveDate := date - 1
    match bookingDate with
    | some bd => if civilDayOfMonth date = civilDayOfMonth bd then bd
                 else effectiveDate
    | none => effectiveDate
  else date

/-- A `PricingRule` document: buckets, hourly rate, active flag. -/
structure PricingRule where
  days : String
  timeSlot : String
  pricePerHour : ℚ
  isActive : Bool
  deriving Repr, DecidableEq

/-- The `PricingRule.findOne({days, timeSlot, isActive: true})` store
lookup. -/
def findRule (rules : List PricingRule) (days timeSlot : String) :
    Option PricingRule :=
  rules.find? (fun r => r.days == days && r.timeSlot == timeSlot && r.isActive)

/-- `PricingService.getPrice` (pricing.service.ts:101-135): classify the
effective date and hour, look up the active rule, fail with the
configuration error when none exists. -/
def getPrice (rules : List PricingRule) (date hour : Nat)
    (bookingDate : Option Nat) : Except Err PriceSegment :=
  let effectiveDate := getEffectiveDate date hour bookingDate
  let days := getDays effectiveDate
  let timeSlot := getTimeSlot hour
  let category := getCategory days timeSlot
  match findRule rules days timeSlot with
  | none => .error (badRequest "Pricing rule not found")
  | some rule => .ok ⟨rule.pricePerHour, days, category, timeSlot⟩

/-- The hourly pricing loop of `calculateBookingPrice`
(pricing.service.ts:215-251): walk from `cur` (absolute minutes,
`day * 1440 + minute`) to `endAbs` in 60-minute steps (shorter final
step), price each step at the rule of its starting instant, accumulate
`rate × duration` and the breakdown. -/
def priceWalk (rules : List PricingRule) (bookingDate : Nat)
    (cur endAbs : Nat) : Except Err (List PriceSegment × ℚ) :=
  if _h : cur < endAbs then
    let slotEnd := min (cur + 60) endAbs
    match getPrice rules (cur / 1440) (cur % 1440 / 60) (some bookingDate) with
    | .error e => .error e
    | .ok seg =>
      match priceWalk rules bookingDate slotEnd endAbs with
      | .error e => .error e
      | .ok (segs, total) =>
        .ok (seg :: segs, seg.rate * (((slotEnd - cur : Nat) : ℚ) / 60) + total)
  else
    .ok ([], 0)
termination_by endAbs - cur
decreasing_by omega

/-- `PricingService.calculateBookingPrice` (pricing.service.ts:143-258):
normalize the date, build start/end instants (adding a day when
`end ≤ start`), validate duration and 30-minute increments, then run the
hourly walk.  Returns total hours, breakdown and total price. -/
def calculateBookingPrice (rules : List PricingRule) (bookingDate : Nat)
    (sm em : Nat) : Except Err (ℚ × List PriceSegment × ℚ) :=
  let startAbs := bookingDate * 1440 + sm
  let endAbs0 := bookingDate * 1440 + em
  let endAbs := if endAbs0 ≤ startAbs then endAbs0 + 1440 else endAbs0
  let totalMinutes := endAbs - startAbs
  let totalHours : ℚ := (totalMinutes : ℚ) / 60
  if totalHours < 1 then
    .error (badRequest "Minimum booking duration is 1 hour")
  else if totalMinutes % 60 ≠ 0 ∧ totalMinutes % 60 ≠ 30 then
    .error (badRequest "Bookings must be in 30-minute increments")
  else
    match priceWalk rules bookingDate startAbs endAbs with
    | .error e => .error e
    | .ok (segs, total) => .ok (totalHours, segs, total)

/-- A `Customer` document (models/Customer.ts, fields used here). -/
structure Customer where
  id : Nat
  name : String
  phone : String
  email : Option String
  totalBookings : Nat
  deriving Repr, DecidableEq

/-- A `PromoCode` document: normalized-upper code, discount kind/value,
optional usage cap, usage list, active flag and expiry instant. -/
structure PromoCode where
  id : Nat
  code : String
  discountType : String
  discountValue : ℚ
  maxTotalUses : Option Nat
  usedByCustomers : List Nat
  isActive : Bool
  expiresAt : Nat
  deriving Repr, DecidableEq

/-- `PromoCodeValidationResult` (promoCode.types.ts shape). -/
structure PromoCodeValidationResult where
  valid : Bool
  discount : Option ℚ
  finalAmount : Option ℚ
  promoCodeId : Option Nat
  message : String
  deriving Repr, DecidableEq

/-- JS `String.prototype.toUpperCase` restricted to the code points the
system stores (promo codes): uppercase each character. -/
def toUpperCase (s : String) : String := ⟨s.data.map Char.toUpper⟩

/-- JS `Math.round`: round half towards positive infinity,
`⌊x + 0.5⌋`. -/
def jsRound (q : ℚ) : ℚ := ((⌊q + 1/2⌋ : ℤ) : ℚ)

/-- `PromoCodeService.calculateDiscount` (promoCode.service.ts:92-114):
percentage → `round(amount * value / 100)`, fixed → `value`, then clamp
to the amount; returns `(discount, finalAmount)`. -/
def calculateDiscount (amount : ℚ) (discountType : String)
    (discountValue : ℚ) : ℚ × ℚ :=
  let discount0 : ℚ :=
    if discountType = "percentage" then jsRound (amount * discountValue / 100)
    else discountValue
  let discount := min discount0 amount
  (discount, amount - discount)

/-- `PromoCodeService.validatePromoCode` (promoCode.service.ts:11-87):
case-insensitive lookup, then the short-circuiting checks active →
expired → already-used-by-this-phone (across all customer records with
the phone) → usage cap, then the discount computation. -/
def validatePromoCode (promoCodes : List PromoCode)
    (customers : List Customer) (now : Nat) (code phone : String)
    (bookingAmount : ℚ) : PromoCodeValidationResult :=
  match promoCodes.find? (fun p => p.code == toUpperCase code) with
  | none => ⟨false, none, none, none, "Invalid promo code"⟩
  | some promo =>
    if !promo.isActive then
      ⟨false, none, none, none, "This promo code is no longer active"⟩
    else if promo.expiresAt < now then
      ⟨false, none, none, none, "This promo code has expired"⟩
    else
      let existingCustomers := customers.filter (fun c => c.phone == phone)
      let customerIds := existingCustomers.map (fun c => c.id)
      let hasUsedPromo := customerIds.any (fun i => promo.usedByCustomers.contains i)
      if existingCustomers.length > 0 && hasUsedPromo then
        ⟨false, none, none, none, "You have already used this promo code"⟩
      else if (match promo.maxTotalUses with
               | some m => decide (promo.usedByCustomers.length ≥ m)
               | none => false) then
        ⟨false, none, none, none, "This promo code usage limit has been reached"⟩
      else
        let dc := calculateDiscount bookingAmount promo.discountType promo.discountValue
        ⟨true, some dc.1, some dc.2, some promo.id, "Promo code applied"⟩

/-- The persisted effect of `markAsUsed`'s `promoCode.save()`: the
document with the given id gets the customer appended to
`usedByCustomers`. -/
def consumeUpdate (promoCodeId customerId : Nat) (q : PromoCode) : PromoCode :=
  if q.id == promoCodeId then
    { q with usedByCustomers := q.usedByCustomers ++ [customerId] }
  else q

/-- The persisted effect of `removeUsage`'s `promoCode.save()`: the
document with the given id gets the customer filtered out of
`usedByCustomers`. -/
def releaseUpdate (promoCodeId customerId : Nat) (q : PromoCode) : PromoCode :=
  if q.id == promoCodeId then
    { q with usedByCustomers := q.usedByCustomers.filter (fun i => i != customerId) }
  else q

/-- `PromoCodeService.markAsUsed` (promoCode.service.ts:119-140): find
the code (404 if missing), refuse when the customer already appears in
`usedByCustomers`, otherwise append the customer and save. -/
def markAsUsed (promoCodes : List PromoCode) (promoCodeId customerId : Nat) :
    Except Err (List PromoCode) :=
  match promoCodes.find? (fun q => q.id == promoCodeId) with
  | none => .error (notFound "Promo code")
  | some promo =>
    if promo.usedByCustomers.contains customerId then
      .error (badRequest "Promo code already used by this customer")
    else
      .ok (promoCodes.map (consumeUpdate promoCodeId customerId))

/-- `PromoCodeService.removeUsage` (promoCode.service.ts:145-160): a
missing code is silently ignored; otherwise the customer is filtered out
of `usedByCustomers` and the document saved. -/
def removeUsage (promoCodes : List PromoCode) (promoCodeId customerId : Nat) :
    Except Err (List PromoCode) :=
  match promoCodes.find? (fun q => q.id == promoCodeId) with
  | none => .ok promoCodes
  | some _ =>
    .ok (promoCodes.map (releaseUpdate promoCodeId customerId))

/-- A `Court` document (fields used by the booking controller). -/
structure Court where
  id : Nat
  name : String
  status : String
  deriving Repr, DecidableEq

/-- The `CreateBookingDTO` of the customer flow, with times already
parsed to minutes and absent optionals as `none`. -/
structure CreateBookingRequest where
  courtId : Nat
  bookingDate : Nat
  startTime : Nat
  endTime : Nat
  customerPhone : String
  customerName : String
  customerEmail : Option String
  notes : Option String
  promoCode : Option String
  paymentId : Option String
  paymentStatus : Option String
  amountPaid : Option ℚ
  deriving Repr, DecidableEq

/-- The whole persistent store: one list per Mongo collection, plus the
counters that mint fresh document ids. -/
structure State where
  bookings : List Booking
  customers : List Customer
  promoCodes : List PromoCode
  courts : List Court
  rules : List PricingRule
  nextBookingId : Nat
  nextCustomerId : Nat
  deriving Repr, DecidableEq

/-- `createBooking` (booking.controller.ts:190-390), the customer
booking flow: required-field check, idempotent replay on a known
`paymentId`, court lookup and status check, time validation,
availability re-check, customer creation, pricing, optional promo
validation (failure ignored), booking creation, promo consumption
(failure swallowed) and the customer's booking counter bump.  `now` is
the promo-expiry clock, `today` the past-date clock. -/
def createBooking (st : State) (req : CreateBookingRequest)
    (now today : Nat) : Except Err (Booking × State) :=
  if req.customerPhone = "" ∨ req.customerName = "" then
    .error (badRequest "All required fields must be provided")
  else
    let dup := match req.paymentId with
      | some pid => st.bookings.find? (fun (b : Booking) => b.paymentId == some pid)
      | none => none
    match dup with
    | some existingBooking =>
      -- "Return the existing booking instead of creating a duplicate"
      .ok (existingBooking, st)
    | none =>
      match st.courts.find? (fun (c : Court) => c.id == req.courtId) with
      | none => .error (notFound "Court")
      | some _court =>
        if _court.status = "inactive" then
          .error (badRequest "Court is not available for booking")
        else
          match validateBookingTime req.startTime req.endTime
              req.bookingDate today with
          | .error e => .error e
          | .ok _ =>
            let availability := checkAvailability st.bookings req.courtId
              req.bookingDate req.startTime req.endTime none
            if !availability.available then
              .error (conflict "Time slot is not available")
            else
              let customer : Customer :=
                ⟨st.nextCustomerId, req.customerName, req.customerPhone,
                  req.customerEmail, 0⟩
              let durationHours := calculateDuration req.startTime req.endTime
              match calculateBookingPrice st.rules req.bookingDate
                  req.startTime req.endTime with
              | .error e => .error e
              | .ok (_totalHours, breakdown, price) =>
                let promoResult := match req.promoCode with
                  | some code =>
                    some (validatePromoCode st.promoCodes
                      (st.customers ++ [customer]) now code
                      req.customerPhone price)
                  | none => none
                let applied : Option Nat × ℚ × ℚ :=
                  match promoResult with
                  | some r =>
                    if r.valid ∧ r.promoCodeId.isSome then
                      (r.promoCodeId, r.discount.getD 0, r.finalAmount.getD price)
                    else (none, 0, price)
                  | none => (none, 0, price)
                let booking : Booking :=
                  ⟨st.nextBookingId, some customer.id, req.courtId,
                    req.bookingDate, req.startTime, req.endTime,
                    durationHours, price, breakdown, applied.1, applied.2.1,
                    applied.2.2, req.paymentStatus.getD "pending",
                    req.paymentId, (req.amountPaid.getD 0),
                    (if req.paymentStatus = some "paid" then "confirmed"
                     else "pending"),
                    req.notes⟩
                let st1 : State :=
                  { st with
                    bookings := st.bookings ++ [booking],
                    customers := st.customers ++ [customer],
                    nextBookingId := st.nextBookingId + 1,
                    nextCustomerId := st.nextCustomerId + 1 }
                let st2 : State := match applied.1 with
                  | some pid =>
                    match markAsUsed st1.promoCodes pid customer.id with
                    | .ok newCodes => { st1 with promoCodes := newCodes }
                    | .error _ => st1  -- "log but don't fail the booking"
                  | none => st1
                let st3 : State :=
                  { st2 with customers := st2.customers.map (fun (c : Customer) =>
                      if c.id == customer.id then
                        { c with totalBookings := c.totalBookings + 1 }
                      else c) }
                .ok (booking, st3)

/-- `cancelBooking` (booking.controller.ts:885-931): 404 on a missing
booking, a 400 error when the booking is already cancelled or completed,
otherwise the soft-delete status flip, the appended cancellation note
and the promo usage release. -/
def cancelBooking (st : State) (id : Nat) (reason : Option String) :
    Except Err (Booking × State) :=
  match st.bookings.find? (fun (b : Booking) => b.id == id) with
  | none => .error (notFound "Booking")
  | some booking =>
    if booking.status = "cancelled" then
      .error (badRequest "Booking is already cancelled")
    else if booking.status = "completed" then
      .error (badRequest "Cannot cancel completed booking")
    else
      let newNotes := match reason with
        | some r =>
          some (match booking.notes with
            | some n => n ++ "\nCancellation reason: " ++ r
            | none => "Cancellation reason: " ++ r)
        | none => booking.notes
      let booking1 := { booking with status := "cancelled", notes := newNotes }
      let st1 := { st with bookings := st.bookings.map (fun (b : Booking) =>
        if b.id == id then booking1 else b) }
      let st2 := match booking.promoCode, booking.customer with
        | some pc, some cust =>
          match removeUsage st1.promoCodes pc cust with
          | .ok newCodes => { st1 with promoCodes := newCodes }
          | .error _ => st1
        | _, _ => st1
      .ok (booking1, st2)

/-- The occupied-minute semantics the specification assigns to an
interval: a midnight-crossing interval occupies `[start,1440) ∪ [0,end)`,
any other interval occupies `[start,end)`.  This is the reference
semantics of the claim, not code of the repository. -/
def occupiedMinute (s e : Nat) (crosses : Bool) (m : Nat) : Bool :=
  if crosses then (decide (s ≤ m) && decide (m < 1440)) || decide (m < e)
  else decide (s ≤ m) && decide (m < e)

theorem filter_isEmpty_eq_not_any {α : Type} (l : List α) (p : α → Bool) :
    (l.filter p).isEmpty = !l.any p := by
  induction l with
  | nil => rfl
  | cons a l ih => by_cases h : p a <;> simp [List.filter, h, ih]

theorem any_congr {α : Type} (l : List α) (f g : α → Bool)
    (h : ∀ a ∈ l, f a = g a) : l.any f = l.any g := by
  induction l with
  | nil => rfl
  | cons a l ih =>
    simp only [List.any_cons, h a (List.mem_cons_self a l)]
    rw [ih fun a ha => h a (List.mem_cons_of_mem _ ha)]

theorem insertKey_contains (acc : List Nat) (x c : Nat) :
    (insertKey acc x).contains c = (acc.contains c || x == c) := by
  simp only [insertKey]
  by_cases h : acc.contains x
  · rw [if_pos h]
    by_cases hxc : x = c
    · subst hxc; simp_all [List.contains, List.elem_eq_mem]
    · have : (x == c) = false := by simp [hxc]
      simp [this]
  · rw [if_neg h]
    simp only [List.contains, List.elem_eq_mem, List.mem_append,
      List.mem_singleton, Bool.decide_or]
    by_cases hxc : x = c
    · subst hxc; simp
    · simp [hxc, Ne.symm hxc]

theorem map_fst_mk {α β : Type} (l : List α) (f : α → β) :
    (l.map (fun c => (c, f c))).map Prod.fst = l := by
  simp [List.map_map, Function.comp_def]

/-- The `available` flag of `checkAvailability` says: no stored matching
booking overlaps the request. -/
theorem checkAvailability_available (bookings : List Booking)
    (courtId d sm em : Nat) (excludeId : Option Nat) :
    (checkAvailability bookings courtId d sm em excludeId).available =
      !(bookings.filter (bookingMatches courtId d excludeId)).any (fun b =>
        timeSlotsOverlap sm em (decide (em < sm)) b.startTime b.endTime
          (decide (b.endTime < b.startTime))) := by
  unfold checkAvailability
  exact filter_isEmpty_eq_not_any _ _

theorem foldl_insertKey_contains (l : List Booking) (acc : List Nat) (c : Nat) :
    (l.foldl (fun acc b => insertKey acc b.court) acc).contains c =
      (acc.contains c || l.any (fun b => b.court == c)) := by
  induction l generalizing acc with
  | nil => simp
  | cons b l ih =>
    simp only [List.foldl_cons, List.any_cons, ih, insertKey_contains,
      Bool.or_assoc]

end Cricket

/-- C3: with an explicit court list, the batch availability result is
exactly, entry for entry, what `checkAvailability` answers for each
(court, slot) pair against the same store (no excluded reservation). -/
theorem checkBatchAvailability_eq_checkAvailability
    (bookings : List Cricket.Booking) (d : Nat) (slots : List (Nat × Nat))
    (cs : List Nat) :
    Cricket.checkBatchAvailability bookings d slots (some cs) =
      cs.map (fun c => (c, slots.map (fun s =>
        (s, (Cricket.checkAvailability bookings c d s.1 s.2 none).available)))) := by
  unfold Cricket.checkBatchAvailability
  apply List.map_congr_left
  intro c hc
  refine congrArg (Prod.mk c) (List.map_congr_left fun s _ => ?_)
  refine congrArg (Prod.mk s) ?_
  rw [Cricket.checkAvailability_available, List.any_filter, List.any_filter,
    List.any_filter]
  refine congrArg Bool.not (Cricket.any_congr _ _ _ fun b _ => ?_)
  have hmem : c ∈ cs := hc
  have hcs : cs.contains c = true := by
    simpa [List.contains, List.elem_eq_mem] using hmem
  have hne : cs.isEmpty = false := by
    cases cs with
    | nil => cases hmem
    | cons a t => rfl
  by_cases hbc : b.court = c
  · simp [Cricket.batchQueryFilter, Cricket.bookingMatches, hbc, hne, hcs,
      hmem, Bool.and_comm, Bool.and_left_comm, Bool.and_assoc]
  · have hb : (b.court == c) = false := by simp [hbc]
    simp [Cricket.batchQueryFilter, Cricket.bookingMatches, hb]

/-- C10: when no court list is passed, the batch result has an entry for
a court exactly when that court has at least one non-cancelled booking on
the requested date; a fully free court is absent from the map. -/
theorem checkBatchAvailability_keys_iff_has_booking
    (bookings : List Cricket.Booking) (d : Nat) (slots : List (Nat × Nat))
    (c : Nat) :
    ((Cricket.checkBatchAvailability bookings d slots none).map Prod.fst).contains c =
      bookings.any (Cricket.bookingMatches c d none) := by
  unfold Cricket.checkBatchAvailability
  rw [Cricket.map_fst_mk, Cricket.foldl_insertKey_contains, List.any_filter]
  simp only [List.contains, List.elem, Bool.false_or]
  refine Cricket.any_congr _ _ _ fun b _ => ?_
  by_cases hbc : b.court = c
  · simp [Cricket.batchQueryFilter, Cricket.bookingMatches, hbc,
      Bool.and_comm, Bool.and_left_comm, Bool.and_assoc]
  · have hb : (b.court == c) = false := by simp [hbc]
    simp [Cricket.batchQueryFilter, Cricket.bookingMatches, hb]

/-- C1: the overlap detector is NOT equivalent to intersection of
occupied minute sets, and the spec's own scenario fails: a request
01:00–03:00 (minutes 60–180, non-crossing) against an existing
23:00–02:00 reservation (minutes 1380–120, crossing) shares minute 70,
yet `timeSlotsOverlap` returns `false`. -/
theorem timeSlotsOverlap_misses_straddling_overlap :
    Cricket.timeSlotsOverlap 60 180 false 1380 120 true = false ∧
    Cricket.occupiedMinute 60 180 false 70 = true ∧
    Cricket.occupiedMinute 1380 120 true 70 = true := by
  refine ⟨?_, by decide, by decide⟩
  simp [Cricket.timeSlotsOverlap]

/-- C6 counterexample: an end time equal to the start time (10:00–10:00)
is NOT treated as a midnight-crossing interval; `validateBookingTime`
uses the strict comparison `endMinutes < startMinutes`, computes a zero
duration and rejects the interval as too short. -/
theorem validateBookingTime_equal_times_rejected :
    Cricket.validateBookingTime 600 600 20500 20400 =
      .error (Cricket.badRequest "Booking duration must be at least 1 hour") := by
  rfl

/-- C6 amended: `crossesMidnight` is the strict `end < start`.  For
`end < start` the duration is `1440 - start + end` and validation
succeeds exactly when the usual duration/window checks pass (never a
rejection merely because of the order of the times), and the
availability check treats the request with the crossing flag set; but
`end = start` is treated as a non-crossing zero-length interval and is
always rejected as an invalid interval. -/
theorem validateBookingTime_strict_crossing (sm em d t : Nat)
    (h : em < sm) :
    (Cricket.validateBookingTime sm em d t = .ok () ↔
      (60 ≤ 1440 - sm + em ∧ (1440 - sm + em) % 30 = 0 ∧
        (540 ≤ sm ∨ sm < 240) ∧ em ≤ 240 ∧ ¬ d < t)) ∧
    (∀ bookings courtId,
      (Cricket.checkAvailability bookings courtId d sm em none).available =
        !(bookings.filter (Cricket.bookingMatches courtId d none)).any (fun b =>
          Cricket.timeSlotsOverlap sm em true b.startTime b.endTime
            (decide (b.endTime < b.startTime)))) ∧
    (∀ x d' t', Cricket.validateBookingTime x x d' t' =
      .error (Cricket.badRequest "Booking duration must be at least 1 hour")) := by
  refine ⟨?_, ?_, ?_⟩
  · simp only [Cricket.validateBookingTime, if_pos h]
    split_ifs with h1 h2 h3 h4 h5 h6 <;> simp_all
  · intro bookings courtId
    rw [Cricket.checkAvailability_available]
    simp [decide_eq_true_eq, h]
  · intro x d' t'
    simp [Cricket.validateBookingTime]

/-- Witness for `validateBookingTime_strict_crossing` at the concrete
crossing interval 23:00–02:00. -/
theorem validateBookingTime_strict_crossing_witness :
    Cricket.validateBookingTime 1380 120 20500 20400 = .ok () ∧
    Cricket.validateBookingTime 600 600 20500 20400 =
      .error (Cricket.badRequest "Booking duration must be at least 1 hour") := by
  refine ⟨?_, ?_⟩
  · exact ((validateBookingTime_strict_crossing 1380 120 20500 20400
      (by decide)).1).mpr (by decide)
  · exact (validateBookingTime_strict_crossing 1380 120 20500 20400
      (by decide)).2.2 600 20500 20400

/-- Rate table used in concrete pricing scenarios: distinct `thu` and
`fri` night rates make the day-bucket choice observable. -/
def thuFriRules : List Cricket.PricingRule :=
  [⟨"thu", "night", 135, true⟩, ⟨"fri", "night", 200, true⟩,
   ⟨"thu", "day", 90, true⟩]

/-- C2 counterexample: for the booking of Thursday 2026-02-12 (day
20496) from 23:00 to 02:00, the post-midnight segments have raw calendar
day 20497 (Friday 2026-02-13), which differs from the nominal day; the
claim then demands the next real day's bucket (`fri`), but the rate
lookup uses the `thu` bucket (`raw − 1 = nominal`): the whole booking is
priced at the `thu` night rate 135, total 405, not at the `fri` rate. -/
theorem getEffectiveDate_spans_not_next_day_bucket :
    Cricket.getEffectiveDate 20497 1 (some 20496) = 20496 ∧
    Cricket.getDays 20497 = "fri" ∧
    Cricket.getDays 20496 = "thu" ∧
    Cricket.calculateBookingPrice thuFriRules 20496 1380 120 =
      .ok (3, [⟨135, "thu", "weekend-night", "night"⟩,
        ⟨135, "thu", "weekend-night", "night"⟩,
        ⟨135, "thu", "weekend-night", "night"⟩], 405) := by
  refine ⟨by decide, by decide, by decide, ?_⟩
  simp [Cricket.calculateBookingPrice, Cricket.priceWalk, Cricket.getPrice,
    Cricket.getEffectiveDate, Cricket.findRule, Cricket.getDays,
    Cricket.getDayOfWeek, Cricket.getTimeSlot, Cricket.isNightTime,
    Cricket.getCategory, Cricket.civilDayOfMonth, thuFriRules]
  norm_num

/-- Core midnight-boundary fact: for an early-morning hour the effective
day is always the nominal booking day, whether the segment's raw day
equals it or lies one real day later. -/
theorem Cricket.getEffectiveDate_nominal (raw nominal hour : Nat)
    (hh : hour < 4)
    (hcase : raw = nominal ∨
      (raw = nominal + 1 ∧
        Cricket.civilDayOfMonth raw ≠ Cricket.civilDayOfMonth nominal)) :
    Cricket.getEffectiveDate raw hour (some nominal) = nominal := by
  rcases hcase with h | ⟨h1, h2⟩
  · subst h
    simp [Cricket.getEffectiveDate, hh]
  · subst h1
    simp [Cricket.getEffectiveDate, hh, h2]

/-- C2 amended: a priced sub-segment whose start hour lies in [0,4) is
always looked up in the booking's nominal day bucket: directly when its
raw day equals the nominal day, and as `raw − 1 = nominal` when the
booking spans into the next real day (whose day-of-month differs from
the nominal one); the naive `nominal − 1` bucket is never used. -/
theorem getEffectiveDate_early_hours_nominal (raw nominal hour : Nat)
    (hh : hour < 4)
    (hcase : raw = nominal ∨
      (raw = nominal + 1 ∧
        Cricket.civilDayOfMonth raw ≠ Cricket.civilDayOfMonth nominal)) :
    Cricket.getEffectiveDate raw hour (some nominal) = nominal :=
  Cricket.getEffectiveDate_nominal raw nominal hour hh hcase

/-- Witness for `getEffectiveDate_early_hours_nominal` on the concrete
next-day segment (Friday 2026-02-13 at 01:00 of a Thursday booking). -/
theorem getEffectiveDate_early_hours_nominal_witness :
    Cricket.getEffectiveDate 20497 1 (some 20496) = 20496 :=
  getEffectiveDate_early_hours_nominal 20497 20496 1 (by decide)
    (Or.inr ⟨rfl, by decide⟩)

/-- C7: discount computation — percentage is `round(amount·value/100)`,
fixed is the raw value, both clamped to the amount so the final price
`amount − discount` is never negative; the 20 % on 200 SAR scenario
yields (40, 160); and a code already consumed by a customer record with
the requesting phone validates to `valid = false`. -/
theorem calculateDiscount_correct (amount value : ℚ) (ha : 0 ≤ amount) :
    (Cricket.calculateDiscount amount "percentage" value).1 =
      min (Cricket.jsRound (amount * value / 100)) amount ∧
    (Cricket.calculateDiscount amount "fixed" value).1 = min value amount ∧
    (∀ t, (Cricket.calculateDiscount amount t value).1 ≤ amount ∧
      (Cricket.calculateDiscount amount t value).2 =
        amount - (Cricket.calculateDiscount amount t value).1 ∧
      0 ≤ (Cricket.calculateDiscount amount t value).2) ∧
    Cricket.calculateDiscount 200 "percentage" 20 = (40, 160) ∧
    (∀ pcs customers now code phone (p : Cricket.PromoCode)
        (cust : Cricket.Customer),
      pcs.find? (fun q => q.code == Cricket.toUpperCase code) = some p →
      cust ∈ customers → cust.phone = phone →
      p.usedByCustomers.contains cust.id = true →
      (Cricket.validatePromoCode pcs customers now code phone amount).valid =
        false) := by
  refine ⟨rfl, ?_, ?_, ?_, ?_⟩
  · simp [Cricket.calculateDiscount]
  · intro t
    refine ⟨min_le_right _ _, rfl, ?_⟩
    exact sub_nonneg.mpr (min_le_right _ _)
  · simp only [Cricket.calculateDiscount, Cricket.jsRound]
    norm_num [min_def]
  · intro pcs customers now code phone p cust hfind hmem hphone hused
    unfold Cricket.validatePromoCode
    rw [hfind]
    dsimp only
    have hcin : cust ∈ customers.filter (fun c => c.phone == phone) :=
      List.mem_filter.mpr ⟨hmem, by simp [hphone]⟩
    have hlen : (customers.filter (fun c => c.phone == phone)).length > 0 :=
      List.length_pos.mpr (List.ne_nil_of_mem hcin)
    have hany : ((customers.filter (fun c => c.phone == phone)).map
        (fun c => c.id)).any (fun i => p.usedByCustomers.contains i) = true := by
      refine List.any_eq_true.mpr ⟨cust.id, List.mem_map.mpr ⟨cust, hcin, rfl⟩, hused⟩
    split_ifs with h1 h2 h3 <;> simp_all

/-- Witness for `calculateDiscount_correct`: the 20 % / 200 SAR scenario
and a reuse of code SAVE20 by the phone 0500 whose customer record 7 is
already in `usedByCustomers`. -/
theorem calculateDiscount_correct_witness :
    Cricket.calculateDiscount 200 "percentage" 20 = (40, 160) ∧
    (Cricket.validatePromoCode
      [⟨1, "SAVE20", "percentage", 20, none, [7], true, 100⟩]
      [⟨7, "Ali", "0500", none, 0⟩] 50 "save20" "0500" 200).valid = false := by
  refine ⟨(calculateDiscount_correct 200 20 (by norm_num)).2.2.2.1, ?_⟩
  exact (calculateDiscount_correct 200 20 (by norm_num)).2.2.2.2
    [⟨1, "SAVE20", "percentage", 20, none, [7], true, 100⟩]
    [⟨7, "Ali", "0500", none, 0⟩] 50 "save20" "0500"
    ⟨1, "SAVE20", "percentage", 20, none, [7], true, 100⟩
    ⟨7, "Ali", "0500", none, 0⟩ (by decide) (by decide) rfl (by decide)

theorem Cricket.find?_map_update (pcs : List Cricket.PromoCode) (pid : Nat)
    (u : Cricket.PromoCode → Cricket.PromoCode)
    (hu : ∀ q, (u q).id = q.id) :
    (pcs.map (fun q => if q.id == pid then u q else q)).find?
        (fun q => q.id == pid) =
      (pcs.find? (fun q => q.id == pid)).map
        (fun q => if q.id == pid then u q else q) := by
  rw [List.find?_map]
  have hcomp : ((fun (q : Cricket.PromoCode) => q.id == pid) ∘
      (fun q => if q.id == pid then u q else q)) =
      (fun q => q.id == pid) := by
    funext q
    by_cases h : q.id = pid <;> simp [h, hu q]
  rw [hcomp]

theorem Cricket.find?_map_idpres (pcs : List Cricket.PromoCode) (pid : Nat)
    (f : Cricket.PromoCode → Cricket.PromoCode)
    (hf : ∀ q, (f q).id = q.id) :
    (pcs.map f).find? (fun q => q.id == pid) =
      (pcs.find? (fun q => q.id == pid)).map f := by
  rw [List.find?_map]
  have hcomp : ((fun (q : Cricket.PromoCode) => q.id == pid) ∘ f) =
      (fun q => q.id == pid) := by
    funext q
    simp [Function.comp, hf q]
  rw [hcomp]

theorem Cricket.consumeUpdate_id (pid cid : Nat) (q : Cricket.PromoCode) :
    (Cricket.consumeUpdate pid cid q).id = q.id := by
  unfold Cricket.consumeUpdate
  split <;> rfl

theorem Cricket.releaseUpdate_id (pid cid : Nat) (q : Cricket.PromoCode) :
    (Cricket.releaseUpdate pid cid q).id = q.id := by
  unfold Cricket.releaseUpdate
  split <;> rfl

/-- C8: for a stored code and a customer not yet in its usage list,
consume succeeds and appends the customer; a second consume without a
release fails with the promo-already-consumed error (leaving the store
as it was, since no new store is produced); release after consume
succeeds, is idempotent, and a consume after the release succeeds again;
releasing against a missing code is a no-op, not an error. -/
theorem markAsUsed_release_cycle (pcs : List Cricket.PromoCode)
    (pid cid : Nat) (p : Cricket.PromoCode)
    (hfind : pcs.find? (fun q => q.id == pid) = some p)
    (hnot : p.usedByCustomers.contains cid = false) :
    Cricket.markAsUsed pcs pid cid =
      .ok (pcs.map (Cricket.consumeUpdate pid cid)) ∧
    Cricket.markAsUsed (pcs.map (Cricket.consumeUpdate pid cid)) pid cid =
      .error (Cricket.badRequest "Promo code already used by this customer") ∧
    Cricket.removeUsage (pcs.map (Cricket.consumeUpdate pid cid)) pid cid =
      .ok ((pcs.map (Cricket.consumeUpdate pid cid)).map
        (Cricket.releaseUpdate pid cid)) ∧
    Cricket.removeUsage ((pcs.map (Cricket.consumeUpdate pid cid)).map
        (Cricket.releaseUpdate pid cid)) pid cid =
      .ok ((pcs.map (Cricket.consumeUpdate pid cid)).map
        (Cricket.releaseUpdate pid cid)) ∧
    Cricket.markAsUsed ((pcs.map (Cricket.consumeUpdate pid cid)).map
        (Cricket.releaseUpdate pid cid)) pid cid =
      .ok (((pcs.map (Cricket.consumeUpdate pid cid)).map
        (Cricket.releaseUpdate pid cid)).map (Cricket.consumeUpdate pid cid)) ∧
    (∀ qcs : List Cricket.PromoCode,
      qcs.find? (fun q => q.id == pid) = none →
      Cricket.removeUsage qcs pid cid = .ok qcs) := by
  have hpid : (p.id == pid) = true := by
    have h := List.find?_some hfind
    exact h
  have hu1p : Cricket.consumeUpdate pid cid p =
      { p with usedByCustomers := p.usedByCustomers ++ [cid] } := by
    unfold Cricket.consumeUpdate
    rw [if_pos hpid]
  have hnotmem : cid ∉ p.usedByCustomers := by
    simpa [List.contains, List.elem_eq_mem] using hnot
  have hfind1 : (pcs.map (Cricket.consumeUpdate pid cid)).find?
      (fun q => q.id == pid) = some (Cricket.consumeUpdate pid cid p) := by
    rw [Cricket.find?_map_idpres pcs pid _ (Cricket.consumeUpdate_id pid cid),
      hfind]
    rfl
  have hused1 : cid ∈ (Cricket.consumeUpdate pid cid p).usedByCustomers := by
    rw [hu1p]
    simp
  have hu2p : Cricket.releaseUpdate pid cid (Cricket.consumeUpdate pid cid p) =
      { p with usedByCustomers :=
          (p.usedByCustomers ++ [cid]).filter (fun i => i != cid) } := by
    rw [hu1p]
    unfold Cricket.releaseUpdate
    rw [if_pos hpid]
  have hfind2 : ((pcs.map (Cricket.consumeUpdate pid cid)).map
      (Cricket.releaseUpdate pid cid)).find? (fun q => q.id == pid) =
      some (Cricket.releaseUpdate pid cid (Cricket.consumeUpdate pid cid p)) := by
    rw [Cricket.find?_map_idpres _ pid _ (Cricket.releaseUpdate_id pid cid),
      hfind1]
    rfl
  have hused2 : cid ∉ (Cricket.releaseUpdate pid cid
      (Cricket.consumeUpdate pid cid p)).usedByCustomers := by
    rw [hu2p]
    simp [List.mem_filter]
  refine ⟨?_, ?_, ?_, ?_, ?_, ?_⟩
  · simp only [Cricket.markAsUsed, hfind]
    simp [hnotmem]
  · simp only [Cricket.markAsUsed, hfind1]
    simp [hused1]
  · simp only [Cricket.removeUsage, hfind1]
  · simp only [Cricket.removeUsage, hfind2]
    congr 1
    rw [List.map_map]
    refine List.map_congr_left fun q _ => ?_
    by_cases h : q.id = pid <;>
      simp [Function.comp, Cricket.releaseUpdate, h, List.filter_filter,
        Bool.and_self]
  · simp only [Cricket.markAsUsed, hfind2]
    simp [hused2]
  · intro qcs hnone
    simp only [Cricket.removeUsage, hnone]

/-- Witness for `markAsUsed_release_cycle` on a one-code store. -/
theorem markAsUsed_release_cycle_witness :
    Cricket.markAsUsed [⟨1, "X", "fixed", 10, none, [], true, 100⟩] 1 7 =
      .ok [⟨1, "X", "fixed", 10, none, [7], true, 100⟩] ∧
    Cricket.markAsUsed [⟨1, "X", "fixed", 10, none, [7], true, 100⟩] 1 7 =
      .error (Cricket.badRequest "Promo code already used by this customer") := by
  have h := markAsUsed_release_cycle
    [⟨1, "X", "fixed", 10, none, [], true, 100⟩] 1 7
    ⟨1, "X", "fixed", 10, none, [], true, 100⟩ rfl rfl
  exact ⟨h.1, h.2.1⟩

/-- C4: a booking-creation request whose `paymentId` already appears on
a stored booking returns that stored booking and the store completely
unchanged: no booking or customer is created and no promo code is
consumed. -/
theorem createBooking_idempotent_replay (st : Cricket.State)
    (req : Cricket.CreateBookingRequest) (now today : Nat) (pid : String)
    (b : Cricket.Booking)
    (hphone : req.customerPhone ≠ "") (hname : req.customerName ≠ "")
    (hpay : req.paymentId = some pid)
    (hfind : st.bookings.find?
      (fun x => x.paymentId == some pid) = some b) :
    Cricket.createBooking st req now today = .ok (b, st) := by
  simp only [Cricket.createBooking, hpay, hfind]
  rw [if_neg (by simp [hphone, hname])]

/-- Witness for `createBooking_idempotent_replay` on a one-booking
store. -/
theorem createBooking_idempotent_replay_witness :
    Cricket.createBooking
      ⟨[⟨1, some 1, 1, 20496, 540, 660, 2, 180, [], none, 0, 180, "paid",
         some "PAY1", 180, "confirmed", none⟩], [], [], [], [], 2, 2⟩
      ⟨1, 20496, 540, 660, "0500", "Ali", none, none, none, some "PAY1",
        some "paid", some 180⟩ 0 0 =
      .ok (⟨1, some 1, 1, 20496, 540, 660, 2, 180, [], none, 0, 180, "paid",
         some "PAY1", 180, "confirmed", none⟩,
        ⟨[⟨1, some 1, 1, 20496, 540, 660, 2, 180, [], none, 0, 180, "paid",
         some "PAY1", 180, "confirmed", none⟩], [], [], [], [], 2, 2⟩) :=
  createBooking_idempotent_replay _ _ 0 0 "PAY1" _
    (by decide) (by decide) rfl rfl

/-- C5 counterexample: cancelling an already-cancelled reservation is an
error (HTTP 400 "Booking is already cancelled"), not a no-op. -/
theorem cancelBooking_already_cancelled_rejected :
    Cricket.cancelBooking
      ⟨[⟨1, some 1, 1, 20496, 540, 660, 2, 180, [], none, 0, 180, "paid",
         none, 0, "cancelled", none⟩], [], [], [], [], 2, 2⟩ 1 none =
      .error (Cricket.badRequest "Booking is already cancelled") := by
  rfl

/-- C5 amended: invoking cancel on a reservation whose status is already
`cancelled` fails with the BadRequest error "Booking is already
cancelled"; since the operation returns before any write, the store is
left unchanged. -/
theorem cancelBooking_already_cancelled (st : Cricket.State) (id : Nat)
    (reason : Option String) (b : Cricket.Booking)
    (hfind : st.bookings.find? (fun x => x.id == id) = some b)
    (hstatus : b.status = "cancelled") :
    Cricket.cancelBooking st id reason =
      .error (Cricket.badRequest "Booking is already cancelled") := by
  simp only [Cricket.cancelBooking, hfind]
  rw [if_pos hstatus]

/-- Witness for `cancelBooking_already_cancelled`. -/
theorem cancelBooking_already_cancelled_witness :
    Cricket.cancelBooking
      ⟨[⟨1, some 1, 1, 20496, 540, 660, 2, 180, [], none, 0, 180, "paid",
         none, 0, "cancelled", none⟩], [], [], [], [], 2, 2⟩ 1 (some "why") =
      .error (Cricket.badRequest "Booking is already cancelled") :=
  cancelBooking_already_cancelled _ 1 (some "why") _ rfl rfl

theorem Cricket.validateBookingTime_ok_facts (sm em d t : Nat)
    (hv : Cricket.validateBookingTime sm em d t = .ok ()) :
    em ≠ sm ∧
    60 ≤ (if em < sm then 1440 - sm + em else em - sm) ∧
    (if em < sm then 1440 - sm + em else em - sm) % 30 = 0 ∧
    (540 ≤ sm ∨ sm < 240) ∧
    (em < sm → em ≤ 240) := by
  simp only [Cricket.validateBookingTime] at hv
  by_cases hc : em < sm
  · simp only [if_pos hc] at hv ⊢
    split_ifs at hv with h1 h2 h3 h4 h5 h6 <;> try cases hv
    exact ⟨by omega, by omega, by omega, by omega, fun _ => by omega⟩
  · simp only [if_neg hc] at hv ⊢
    split_ifs at hv with h1 h2 h3 h4 h5 h6 <;> try cases hv
    exact ⟨by omega, by omega, by omega, by omega, fun h => absurd h hc⟩

theorem Cricket.calculateBookingPrice_ok (rules : List Cricket.PricingRule)
    (dN sm em S E : Nat)
    (hS : S = dN * 1440 + sm)
    (hE : E = if em ≤ sm then dN * 1440 + em + 1440 else dN * 1440 + em)
    (hdur : 60 ≤ E - S) (hmod : (E - S) % 30 = 0) :
    Cricket.calculateBookingPrice rules dN sm em =
      (Cricket.priceWalk rules dN S E).map
        (fun r => (((E - S : Nat) : ℚ) / 60, r.1, r.2)) := by
  have hcond : (dN * 1440 + em ≤ dN * 1440 + sm) = (em ≤ sm) := by
    simp
  simp only [Cricket.calculateBookingPrice, hcond]
  rw [← hE, ← hS]
  have h60 : ¬ ((E - S : Nat) : ℚ) / 60 < 1 := by
    rw [not_lt, le_div_iff (by norm_num : (0:ℚ) < 60), one_mul]
    exact_mod_cast hdur
  rw [if_neg h60, if_neg (by omega)]
  cases Cricket.priceWalk rules dN S E with
  | error e => rfl
  | ok r => rfl

/-- The rate lookup every sub-segment of a booking on nominal day `dN`
resolves to: the nominal day's bucket and the segment hour's time
bucket.  Proof-side abbreviation, not source code. -/
def priceAtHour (rules : List Cricket.PricingRule) (dN hour : Nat) :
    Except Cricket.Err Cricket.PriceSegment :=
  match Cricket.findRule rules (Cricket.getDays dN) (Cricket.getTimeSlot hour) with
  | none => .error (Cricket.badRequest "Pricing rule not found")
  | some rule => .ok ⟨rule.pricePerHour, Cricket.getDays dN,
      Cricket.getCategory (Cricket.getDays dN) (Cricket.getTimeSlot hour),
      Cricket.getTimeSlot hour⟩

theorem Cricket.getPrice_eq_priceAtHour (rules : List Cricket.PricingRule)
    (dN cur : Nat)
    (hdom : Cricket.civilDayOfMonth (dN + 1) ≠ Cricket.civilDayOfMonth dN)
    (hcur : cur / 1440 = dN ∨ (cur / 1440 = dN + 1 ∧ cur % 1440 < 240)) :
    Cricket.getPrice rules (cur / 1440) (cur % 1440 / 60) (some dN) =
      priceAtHour rules dN (cur % 1440 / 60) := by
  have heff : Cricket.getEffectiveDate (cur / 1440) (cur % 1440 / 60)
      (some dN) = dN := by
    rcases hcur with h | ⟨h1, h2⟩
    · by_cases hh : cur % 1440 / 60 < 4
      · rw [h]
        exact Cricket.getEffectiveDate_nominal dN dN _ hh (Or.inl rfl)
      · rw [h]
        simp [Cricket.getEffectiveDate, hh]
    · have hh : cur % 1440 / 60 < 4 := by omega
      rw [h1]
      exact Cricket.getEffectiveDate_nominal (dN + 1) dN _ hh (Or.inr ⟨rfl, hdom⟩)
  simp only [Cricket.getPrice, heff, priceAtHour]

theorem Cricket.priceWalk_stop (rules : List Cricket.PricingRule)
    (dN a b : Nat) (h : ¬ a < b) :
    Cricket.priceWalk rules dN a b = .ok ([], 0) := by
  rw [Cricket.priceWalk]
  simp [h]

theorem Cricket.priceWalk_step (rules : List Cricket.PricingRule)
    (dN a b : Nat) (h : a < b) :
    Cricket.priceWalk rules dN a b =
      match Cricket.getPrice rules (a / 1440) (a % 1440 / 60) (some dN) with
      | .error e => .error e
      | .ok seg =>
        match Cricket.priceWalk rules dN (min (a + 60) b) b with
        | .error e => .error e
        | .ok r =>
          .ok (seg :: r.1,
            seg.rate * (((min (a + 60) b - a : Nat) : ℚ) / 60) + r.2) := by
  rw [Cricket.priceWalk]
  rw [dif_pos h]
  cases hgp : Cricket.getPrice rules (a / 1440) (a % 1440 / 60) (some dN) with
  | error e => simp [hgp]
  | ok seg =>
    cases hw : Cricket.priceWalk rules dN (min (a + 60) b) b with
    | error e => simp [hgp, hw]
    | ok r =>
      obtain ⟨segs, total⟩ := r
      simp [hgp, hw]

theorem Cricket.priceWalk_split (rules : List Cricket.PricingRule) (dN : Nat) :
    ∀ (k a b : Nat), a + 60 * k ≤ b →
    Cricket.priceWalk rules dN a b =
      match Cricket.priceWalk rules dN a (a + 60 * k) with
      | .error e => .error e
      | .ok r1 =>
        match Cricket.priceWalk rules dN (a + 60 * k) b with
        | .error e => .error e
        | .ok r2 => .ok (r1.1 ++ r2.1, r1.2 + r2.2) := by
  intro k
  induction k with
  | zero =>
    intro a b _hab
    simp only [Nat.mul_zero, Nat.add_zero]
    rw [Cricket.priceWalk_stop rules dN a a (by omega)]
    cases hw : Cricket.priceWalk rules dN a b with
    | error e => simp
    | ok r => simp
  | succ k ih =>
    intro a b hab
    have h60 : a + 60 ≤ b := by omega
    have hlt : a < b := by omega
    have hlt1 : a < a + 60 * (k + 1) := by omega
    have hminb : min (a + 60) b = a + 60 := min_eq_left h60
    have hmin1 : min (a + 60) (a + 60 * (k + 1)) = a + 60 :=
      min_eq_left (by omega)
    have harr : a + 60 + 60 * k = a + 60 * (k + 1) := by omega
    rw [Cricket.priceWalk_step rules dN a b hlt,
      Cricket.priceWalk_step rules dN a (a + 60 * (k + 1)) hlt1,
      hminb, hmin1, ih (a + 60) b (by omega), harr]
    cases hgp : Cricket.getPrice rules (a / 1440) (a % 1440 / 60) (some dN) with
    | error e => rfl
    | ok seg =>
      cases hw1 : Cricket.priceWalk rules dN (a + 60) (a + 60 * (k + 1)) with
      | error e => rfl
      | ok r1 =>
        cases hw2 : Cricket.priceWalk rules dN (a + 60 * (k + 1)) b with
        | error e => rfl
        | ok r2 =>
          simp [add_assoc]

theorem Cricket.priceWalk_shift (rules : List Cricket.PricingRule)
    (dN off : Nat) :
    ∀ (n : Nat), ∀ a b, b - a ≤ n →
    (∀ cur, a ≤ cur → cur < b →
      Cricket.getPrice rules ((cur + off) / 1440) ((cur + off) % 1440 / 60)
          (some dN) =
        Cricket.getPrice rules (cur / 1440) (cur % 1440 / 60) (some dN)) →
    Cricket.priceWalk rules dN (a + off) (b + off) =
      Cricket.priceWalk rules dN a b := by
  intro n
  induction n with
  | zero =>
    intro a b hn _hpt
    rw [Cricket.priceWalk_stop rules dN (a + off) (b + off) (by omega),
      Cricket.priceWalk_stop rules dN a b (by omega)]
  | succ n ih =>
    intro a b hn hpt
    by_cases hab : a < b
    · have hab2 : a + off < b + off := by omega
      rw [Cricket.priceWalk_step rules dN (a + off) (b + off) hab2,
        Cricket.priceWalk_step rules dN a b hab]
      have hminshift : min (a + off + 60) (b + off) = min (a + 60) b + off := by
        omega
      have hmul : min (a + 60) b + off - (a + off) = min (a + 60) b - a := by
        omega
      have hrec : Cricket.priceWalk rules dN (min (a + 60) b + off) (b + off) =
          Cricket.priceWalk rules dN (min (a + 60) b) b := by
        apply ih
        · omega
        · intro cur hc1 hc2
          exact hpt cur (by omega) hc2
      rw [hminshift, hmul, hrec, hpt a le_rfl hab]
    · rw [Cricket.priceWalk_stop rules dN (a + off) (b + off) (by omega),
        Cricket.priceWalk_stop rules dN a b hab]

theorem Cricket.priceWalk_isOk (rules : List Cricket.PricingRule) (dN : Nat) :
    ∀ (n : Nat), ∀ a b, b - a ≤ n →
    (∀ cur, a ≤ cur → cur < b →
      ∃ seg, Cricket.getPrice rules (cur / 1440) (cur % 1440 / 60) (some dN) =
        .ok seg) →
    ∃ r, Cricket.priceWalk rules dN a b = .ok r := by
  intro n
  induction n with
  | zero =>
    intro a b hn _hpt
    exact ⟨([], 0), Cricket.priceWalk_stop rules dN a b (by omega)⟩
  | succ n ih =>
    intro a b hn hpt
    by_cases hab : a < b
    · obtain ⟨seg, hseg⟩ := hpt a le_rfl hab
      obtain ⟨r, hr⟩ := ih (min (a + 60) b) b (by omega)
        (fun cur hc1 hc2 => hpt cur (by omega) hc2)
      refine ⟨(seg :: r.1,
        seg.rate * (((min (a + 60) b - a : Nat) : ℚ) / 60) + r.2), ?_⟩
      rw [Cricket.priceWalk_step rules dN a b hab, hseg, hr]
    · exact ⟨([], 0), Cricket.priceWalk_stop rules dN a b hab⟩

theorem Cricket.priceAtHour_isOk (rules : List Cricket.PricingRule)
    (dN hour : Nat)
    (hday : (Cricket.findRule rules (Cricket.getDays dN) "day").isSome = true)
    (hnight : (Cricket.findRule rules (Cricket.getDays dN) "night").isSome = true) :
    ∃ seg, priceAtHour rules dN hour = .ok seg := by
  unfold priceAtHour
  have hts : Cricket.getTimeSlot hour = "night" ∨
      Cricket.getTimeSlot hour = "day" := by
    unfold Cricket.getTimeSlot
    split <;> simp
  rcases hts with h | h <;> rw [h]
  · obtain ⟨r, hr⟩ := Option.isSome_iff_exists.mp hnight
    rw [hr]
    exact ⟨_, rfl⟩
  · obtain ⟨r, hr⟩ := Option.isSome_iff_exists.mp hday
    rw [hr]
    exact ⟨_, rfl⟩

theorem Cricket.getPrice_ok_at (rules : List Cricket.PricingRule)
    (dN cur : Nat)
    (hdom : Cricket.civilDayOfMonth (dN + 1) ≠ Cricket.civilDayOfMonth dN)
    (hday : (Cricket.findRule rules (Cricket.getDays dN) "day").isSome = true)
    (hnight : (Cricket.findRule rules (Cricket.getDays dN) "night").isSome = true)
    (hcur : cur / 1440 = dN ∨ (cur / 1440 = dN + 1 ∧ cur % 1440 < 240)) :
    ∃ seg, Cricket.getPrice rules (cur / 1440) (cur % 1440 / 60) (some dN) =
      .ok seg := by
  obtain ⟨seg, hseg⟩ := Cricket.priceAtHour_isOk rules dN (cur % 1440 / 60)
    hday hnight
  refine ⟨seg, ?_⟩
  rw [Cricket.getPrice_eq_priceAtHour rules dN cur hdom hcur]
  exact hseg

theorem Cricket.additive_glue (rules : List Cricket.PricingRule)
    (dN S E j : Nat)
    (hle : S + 60 * j ≤ E)
    (hok : ∀ cur, S ≤ cur → cur < E →
      ∃ seg, Cricket.getPrice rules (cur / 1440) (cur % 1440 / 60) (some dN) =
        .ok seg) :
    ∃ r1w r2w : List Cricket.PriceSegment × ℚ,
      Cricket.priceWalk rules dN S (S + 60 * j) = .ok r1w ∧
      Cricket.priceWalk rules dN (S + 60 * j) E = .ok r2w ∧
      Cricket.priceWalk rules dN S E = .ok (r1w.1 ++ r2w.1, r1w.2 + r2w.2) := by
  obtain ⟨r1w, h1⟩ := Cricket.priceWalk_isOk rules dN (S + 60 * j - S) S
    (S + 60 * j) (by omega) (fun cur hc1 hc2 => hok cur hc1 (by omega))
  obtain ⟨r2w, h2⟩ := Cricket.priceWalk_isOk rules dN (E - (S + 60 * j))
    (S + 60 * j) E (by omega) (fun cur hc1 hc2 => hok cur (by omega) hc2)
  refine ⟨r1w, r2w, h1, h2, ?_⟩
  rw [Cricket.priceWalk_split rules dN j S E hle, h1, h2]

/-- C9: pricing is additive under a split at an interior hour boundary
of the walk: for a validated interval, a boundary `60·j` minutes in with
at least one hour on each side, a rule table covering the nominal day's
buckets, and a normal calendar day pair (day-of-month changes between
consecutive days), pricing the two halves separately succeeds and their
breakdowns concatenate and totals sum to the whole interval's. -/
theorem calculateBookingPrice_additive (rules : List Cricket.PricingRule)
    (d sm em t j : Nat) (hsm : sm < 1440) (hem : em < 1440)
    (hv : Cricket.validateBookingTime sm em d t = .ok ())
    (hj : 1 ≤ j)
    (hsplit : 60 * j + 60 ≤ if em < sm then 1440 - sm + em else em - sm)
    (hdom : Cricket.civilDayOfMonth (d + 1) ≠ Cricket.civilDayOfMonth d)
    (hday : (Cricket.findRule rules (Cricket.getDays d) "day").isSome = true)
    (hnight : (Cricket.findRule rules (Cricket.getDays d) "night").isSome = true) :
    ∃ r1 r2 r : ℚ × List Cricket.PriceSegment × ℚ,
      Cricket.calculateBookingPrice rules d sm ((sm + 60 * j) % 1440) = .ok r1 ∧
      Cricket.calculateBookingPrice rules d ((sm + 60 * j) % 1440) em = .ok r2 ∧
      Cricket.calculateBookingPrice rules d sm em = .ok r ∧
      r1.2.1 ++ r2.2.1 = r.2.1 ∧
      r1.2.2 + r2.2.2 = r.2.2 := by
  obtain ⟨hne, hdur, hmod, hwin, hend⟩ :=
    Cricket.validateBookingTime_ok_facts sm em d t hv
  by_cases hcr : em < sm
  · -- midnight-crossing interval
    rw [if_pos hcr] at hdur hmod hsplit
    have hm240 : em ≤ 240 := hend hcr
    by_cases hx : sm + 60 * j < 1440
    · -- split point before midnight
      rw [show (sm + 60 * j) % 1440 = sm + 60 * j from by omega]
      have c1 := Cricket.calculateBookingPrice_ok rules d sm (sm + 60 * j)
        (d * 1440 + sm) (d * 1440 + sm + 60 * j) rfl
        (by rw [if_neg (by omega)]; omega) (by omega) (by omega)
      have c2 := Cricket.calculateBookingPrice_ok rules d (sm + 60 * j) em
        (d * 1440 + sm + 60 * j) (d * 1440 + em + 1440)
        (by omega) (by rw [if_pos (by omega)]) (by omega) (by omega)
      have cw := Cricket.calculateBookingPrice_ok rules d sm em
        (d * 1440 + sm) (d * 1440 + em + 1440) rfl
        (by rw [if_pos (by omega)]) (by omega) (by omega)
      obtain ⟨r1w, r2w, h1, h2, hw⟩ := Cricket.additive_glue rules d
        (d * 1440 + sm) (d * 1440 + em + 1440) j (by omega)
        (fun cur hc1 hc2 => Cricket.getPrice_ok_at rules d cur hdom hday hnight
          (by omega))
      have e1 : Cricket.calculateBookingPrice rules d sm (sm + 60 * j) =
          .ok ((((d * 1440 + sm + 60 * j - (d * 1440 + sm)) : Nat) : ℚ) / 60,
            r1w.1, r1w.2) := by
        rw [c1, h1]; rfl
      have e2 : Cricket.calculateBookingPrice rules d (sm + 60 * j) em =
          .ok ((((d * 1440 + em + 1440 - (d * 1440 + sm + 60 * j)) : Nat) : ℚ) / 60,
            r2w.1, r2w.2) := by
        rw [c2, h2]; rfl
      have e3 : Cricket.calculateBookingPrice rules d sm em =
          .ok ((((d * 1440 + em + 1440 - (d * 1440 + sm)) : Nat) : ℚ) / 60,
            r1w.1 ++ r2w.1, r1w.2 + r2w.2) := by
        rw [cw, hw]; rfl
      exact ⟨_, _, _, e1, e2, e3, rfl, rfl⟩
    · -- split point after midnight: the second half's walk is the
      -- whole walk's tail shifted back one day
      rw [show (sm + 60 * j) % 1440 = sm + 60 * j - 1440 from by omega]
      have c1 := Cricket.calculateBookingPrice_ok rules d sm
        (sm + 60 * j - 1440) (d * 1440 + sm) (d * 1440 + sm + 60 * j) rfl
        (by rw [if_pos (by omega)]; omega) (by omega) (by omega)
      have c2 := Cricket.calculateBookingPrice_ok rules d (sm + 60 * j - 1440)
        em (d * 1440 + sm + 60 * j - 1440) (d * 1440 + em)
        (by omega) (by rw [if_neg (by omega)]) (by omega) (by omega)
      have hsh : Cricket.priceWalk rules d (d * 1440 + sm + 60 * j)
          (d * 1440 + em + 1440) =
          Cricket.priceWalk rules d (d * 1440 + sm + 60 * j - 1440)
            (d * 1440 + em) := by
        have hshift := Cricket.priceWalk_shift rules d 1440
          (d * 1440 + em - (d * 1440 + sm + 60 * j - 1440))
          (d * 1440 + sm + 60 * j - 1440) (d * 1440 + em) (by omega)
          (fun cur hc1 hc2 => by
            have e1 : (cur + 1440) % 1440 = cur % 1440 := by omega
            rw [Cricket.getPrice_eq_priceAtHour rules d (cur + 1440) hdom
                (Or.inr ⟨by omega, by omega⟩),
              Cricket.getPrice_eq_priceAtHour rules d cur hdom
                (Or.inl (by omega)), e1])
        rw [show d * 1440 + sm + 60 * j - 1440 + 1440 =
            d * 1440 + sm + 60 * j from by omega,
          show d * 1440 + em + 1440 = d * 1440 + em + 1440 from rfl] at hshift
        exact hshift
      have cw := Cricket.calculateBookingPrice_ok rules d sm em
        (d * 1440 + sm) (d * 1440 + em + 1440) rfl
        (by rw [if_pos (by omega)]) (by omega) (by omega)
      obtain ⟨r1w, r2w, h1, h2, hw⟩ := Cricket.additive_glue rules d
        (d * 1440 + sm) (d * 1440 + em + 1440) j (by omega)
        (fun cur hc1 hc2 => Cricket.getPrice_ok_at rules d cur hdom hday hnight
          (by omega))
      have e1 : Cricket.calculateBookingPrice rules d sm (sm + 60 * j - 1440) =
          .ok ((((d * 1440 + sm + 60 * j - (d * 1440 + sm)) : Nat) : ℚ) / 60,
            r1w.1, r1w.2) := by
        rw [c1, h1]; rfl
      have e2 : Cricket.calculateBookingPrice rules d (sm + 60 * j - 1440) em =
          .ok ((((d * 1440 + em - (d * 1440 + sm + 60 * j - 1440)) : Nat) : ℚ) / 60,
            r2w.1, r2w.2) := by
        rw [c2, ← hsh, h2]; rfl
      have e3 : Cricket.calculateBookingPrice rules d sm em =
          .ok ((((d * 1440 + em + 1440 - (d * 1440 + sm)) : Nat) : ℚ) / 60,
            r1w.1 ++ r2w.1, r1w.2 + r2w.2) := by
        rw [cw, hw]; rfl
      exact ⟨_, _, _, e1, e2, e3, rfl, rfl⟩
  · -- same-day interval
    rw [if_neg hcr] at hdur hmod hsplit
    have hlt : sm < em := by omega
    rw [show (sm + 60 * j) % 1440 = sm + 60 * j from by omega]
    have c1 := Cricket.calculateBookingPrice_ok rules d sm (sm + 60 * j)
      (d * 1440 + sm) (d * 1440 + sm + 60 * j) rfl
      (by rw [if_neg (by omega)]; omega) (by omega) (by omega)
    have c2 := Cricket.calculateBookingPrice_ok rules d (sm + 60 * j) em
      (d * 1440 + sm + 60 * j) (d * 1440 + em)
      (by omega) (by rw [if_neg (by omega)]) (by omega) (by omega)
    have cw := Cricket.calculateBookingPrice_ok rules d sm em
      (d * 1440 + sm) (d * 1440 + em) rfl
      (by rw [if_neg (by omega)]) (by omega) (by omega)
    obtain ⟨r1w, r2w, h1, h2, hw⟩ := Cricket.additive_glue rules d
      (d * 1440 + sm) (d * 1440 + em) j (by omega)
      (fun cur hc1 hc2 => Cricket.getPrice_ok_at rules d cur hdom hday hnight
        (by omega))
    have e1 : Cricket.calculateBookingPrice rules d sm (sm + 60 * j) =
        .ok ((((d * 1440 + sm + 60 * j - (d * 1440 + sm)) : Nat) : ℚ) / 60,
          r1w.1, r1w.2) := by
      rw [c1, h1]; rfl
    have e2 : Cricket.calculateBookingPrice rules d (sm + 60 * j) em =
        .ok ((((d * 1440 + em - (d * 1440 + sm + 60 * j)) : Nat) : ℚ) / 60,
          r2w.1, r2w.2) := by
      rw [c2, h2]; rfl
    have e3 : Cricket.calculateBookingPrice rules d sm em =
        .ok ((((d * 1440 + em - (d * 1440 + sm)) : Nat) : ℚ) / 60,
          r1w.1 ++ r2w.1, r1w.2 + r2w.2) := by
      rw [cw, hw]; rfl
    exact ⟨_, _, _, e1, e2, e3, rfl, rfl⟩

/-- Witness for `calculateBookingPrice_additive`: Thursday 2026-02-12,
23:00–02:00 split at midnight (j = 1) under the thu/fri rate table; the
halves price to 135 and 270 and the whole to 405. -/
theorem calculateBookingPrice_additive_witness :
    Cricket.calculateBookingPrice thuFriRules 20496 1380 ((1380 + 60 * 1) % 1440) =
      .ok (1, [⟨135, "thu", "weekend-night", "night"⟩], 135) ∧
    Cricket.calculateBookingPrice thuFriRules 20496 ((1380 + 60 * 1) % 1440) 120 =
      .ok (2, [⟨135, "thu", "weekend-night", "night"⟩,
        ⟨135, "thu", "weekend-night", "night"⟩], 270) ∧
    Cricket.calculateBookingPrice thuFriRules 20496 1380 120 =
      .ok (3, [⟨135, "thu", "weekend-night", "night"⟩,
        ⟨135, "thu", "weekend-night", "night"⟩,
        ⟨135, "thu", "weekend-night", "night"⟩], 405) ∧
    (135 : ℚ) + 270 = 405 := by
  obtain ⟨r1, r2, r, h1, h2, h3, _hseg, hsum⟩ :=
    calculateBookingPrice_additive thuFriRules 20496 1380 120 20496 1
      (by decide) (by decide) (by rfl) (by decide) (by decide) (by decide)
      (by decide) (by decide)
  have c1 : Cricket.calculateBookingPrice thuFriRules 20496 1380
      ((1380 + 60 * 1) % 1440) =
      .ok (1, [⟨135, "thu", "weekend-night", "night"⟩], 135) := by
    simp [Cricket.calculateBookingPrice, Cricket.priceWalk, Cricket.getPrice,
      Cricket.getEffectiveDate, Cricket.findRule, Cricket.getDays,
      Cricket.getDayOfWeek, Cricket.getTimeSlot, Cricket.isNightTime,
      Cricket.getCategory, Cricket.civilDayOfMonth, thuFriRules]
    try norm_num
  have c2 : Cricket.calculateBookingPrice thuFriRules 20496
      ((1380 + 60 * 1) % 1440) 120 =
      .ok (2, [⟨135, "thu", "weekend-night", "night"⟩,
        ⟨135, "thu", "weekend-night", "night"⟩], 270) := by
    simp [Cricket.calculateBookingPrice, Cricket.priceWalk, Cricket.getPrice,
      Cricket.getEffectiveDate, Cricket.findRule, Cricket.getDays,
      Cricket.getDayOfWeek, Cricket.getTimeSlot, Cricket.isNightTime,
      Cricket.getCategory, Cricket.civilDayOfMonth, thuFriRules]
    try norm_num
  have c3 : Cricket.calculateBookingPrice thuFriRules 20496 1380 120 =
      .ok (3, [⟨135, "thu", "weekend-night", "night"⟩,
        ⟨135, "thu", "weekend-night", "night"⟩,
        ⟨135, "thu", "weekend-night", "night"⟩], 405) := by
    simp [Cricket.calculateBookingPrice, Cricket.priceWalk, Cricket.getPrice,
      Cricket.getEffectiveDate, Cricket.findRule, Cricket.getDays,
      Cricket.getDayOfWeek, Cricket.getTimeSlot, Cricket.isNightTime,
      Cricket.getCategory, Cricket.civilDayOfMonth, thuFriRules]
    try norm_num
  have hr1 := Except.ok.inj (h1.symm.trans c1)
  have hr2 := Except.ok.inj (h2.symm.trans c2)
  have hr3 := Except.ok.inj (h3.symm.trans c3)
  rw [hr1, hr2, hr3] at hsum
  exact ⟨c1, c2, c3, by simpa using hsum⟩
